import Mathlib

/-!
Verification of the smirror repository's rule-set loader, cron coordinator
and event entry point, as a shallow embedding in Lean.

External collaborators (the storage facade, the secret facade, the ledger,
the notification trigger and the JSON decoder) are modelled as explicit
environment records of functions; the repository's own functions are
translated as pure Lean functions over those environments.  Go methods that
mutate their receiver are rendered as state-passing functions returning the
updated state together with the returned error (errors are Option String,
nil being none).
-/

/-- A storage object as exposed by the storage facade's listings: URL,
directory flag and modification time. -/

structure StObject where
  url : String
  isDir : Bool
  modTime : Int
deriving DecidableEq, Repr

/-! ## Rule-set loader (config.Resources, src/unnamed/part_000) -/

/-- One mirroring rule as decoded from a rule file (config.Resource in the
source); its payload is abstracted to a name, which is all the loader
inspects. -/

structure Resource0 where
  name : String
deriving DecidableEq, Repr

/-- The rule-set state (config.Resources): base URL of the rule files, the
current Rules snapshot and the seed initialRules. -/

structure Resources where
  BaseURL : String
  Rules : List Resource0
  initialRules : List Resource0
deriving DecidableEq, Repr

/-- The environment of Resources.loadAllResources: fs.Exists, fs.List
(already restricted to the basic ".json" suffix matcher the code passes to
it), fs.Download keyed by object URL, and json.Decode on the downloaded
content. -/

structure RuleStore where
  exs : String → Except String Bool
  list : String → Except String (List StObject)
  download : String → Except String String
  decode : String → Except String (List Resource0)

/-- Resources.loadResources: download one rule file, decode it to an array
of rules, and append them to r.Rules; a decode failure is wrapped with the
object URL ("failed to decode: url: err").  The receiver is mutated in
place in Go, so the function returns the updated state with the error. -/

def loadResources0 (fs : RuleStore) (r : Resources) (o : StObject) :
    Resources × Option String :=
  match fs.download o.url with
  | .error e => (r, some e)
  | .ok content =>
    match fs.decode content with
    | .error e => (r, some ("failed to decode: " ++ o.url ++ ": " ++ e))
    | .ok rs => ({ r with Rules := r.Rules ++ rs }, none)

/-- The object loop of Resources.loadAllResources: skip directory entries,
load every rule file in listing order, and stop at the first error. -/

def loadLoop0 (fs : RuleStore) : Resources → List StObject → Resources × Option String
  | r, [] => (r, none)
  | r, o :: os =>
    if o.isDir then loadLoop0 fs r os
    else
      match loadResources0 fs r o with
      | (r', none) => loadLoop0 fs r' os
      | (r', some e) => (r', some e)

/-- The tail of Resources.loadAllResources, entered after Rules has been
reset to initialRules: return nil when BaseURL does not exist, and
otherwise load every listed rule file. -/

def loadReset0 (fs : RuleStore) (r : Resources) : Resources × Option String :=
  match fs.exs r.BaseURL with
  | .error e => (r, some e)
  | .ok false => (r, none)
  | .ok true =>
    match fs.list r.BaseURL with
    | .error e => (r, some e)
    | .ok objects => loadLoop0 fs r objects

/-- Resources.loadAllResources: with an empty BaseURL do nothing; otherwise
first reset Rules to initialRules and proceed as loadReset0. -/

def loadAllResources0 (fs : RuleStore) (r : Resources) : Resources × Option String :=
  if r.BaseURL = "" then (r, none)
  else loadReset0 fs { r with Rules := r.initialRules }

/-- Resources.loadAndInit: load all resources and, on success only, run
Rule.Init (abstracted as initR) over every loaded rule. -/

def loadAndInit0 (fs : RuleStore) (initR : Resource0 → Resource0) (r : Resources) :
    Resources × Option String :=
  match loadAllResources0 fs r with
  | (r', some e) => (r', some e)
  | (r', none) => ({ r' with Rules := r'.Rules.map initR }, none)

/-- Resources.ReloadIfNeeded: consult meta.HasChanged (abstracted as the
pair it returns); on error or no change return its outputs untouched,
otherwise reload and re-initialize, returning true with the reload error. -/

def ReloadIfNeeded0 (hasChanged : Bool × Option String) (fs : RuleStore)
    (initR : Resource0 → Resource0) (r : Resources) :
    Resources × Bool × Option String :=
  match hasChanged with
  | (changed, some e) => (r, changed, some e)
  | (false, none) => (r, false, none)
  | (true, none) =>
    match loadAndInit0 fs initR r with
    | (r', e) => (r', true, e)

/-- The outcome of downloading and decoding one rule file, with the same
error wrapping as loadResources0; used to state theorems about the loader. -/

def fileDecode (fs : RuleStore) (o : StObject) : Except String (List Resource0) :=
  match fs.download o.url with
  | .error e => .error e
  | .ok content =>
    match fs.decode content with
    | .error e => .error ("failed to decode: " ++ o.url ++ ": " ++ e)
    | .ok rs => .ok rs

/-- The concatenation of the rule arrays decoded from the non-directory
entries of a listing prefix (files whose decode fails contribute nothing;
the loader never reaches past the first failure anyway). -/

def decodedRules (fs : RuleStore) : List StObject → List Resource0
  | [] => []
  | o :: os =>
    if o.isDir then decodedRules fs os
    else
      match fileDecode fs o with
      | .ok rs => rs ++ decodedRules fs os
      | .error _ => decodedRules fs os

/-- A prior snapshot holding one rule that came from a rule file. -/

def ruleA : Resource0 := ⟨"ruleA"⟩

/-- A rule-file object whose content no longer decodes. -/

def c1Obj : StObject := ⟨"mem://rules/r1.json", false, 0⟩

/-- A store whose single rule file fails to JSON-decode. -/

def c1Store : RuleStore :=
  { exs := fun _ => .ok true
    list := fun _ => .ok [c1Obj]
    download := fun _ => .ok "not json"
    decode := fun _ => .error "invalid character" }

/-- A rule-set state whose active snapshot ruleA was loaded from the file
before it was corrupted; the seed is empty. -/

def c1State : Resources := ⟨"mem://rules", [ruleA], []⟩

/-- A store that reports every URL as non-existent. -/

def c10Store : RuleStore :=
  { exs := fun _ => .ok false
    list := fun _ => .ok []
    download := fun _ => .error "not found"
    decode := fun _ => .error "unused" }

/-! ## Event entry point (src/fn.go, package mirror) -/

/-- The mirror response as inspected by the entry point: status and error
message. -/

structure MResponse where
  Status : String
  Error : String
deriving DecidableEq, Repr

/-- A storage event carrying the triggering object URL (gs.Event). -/

structure MEvent where
  url : String
deriving DecidableEq, Repr

/-- The environment of fn: NewFromEnv either fails or yields the mirror
service, abstracted as the function from the request's source URL to the
response of service.Mirror. -/

abbrev MirrorEnv := Except String (String → MResponse)

/-- The inner fn of fn.go: construct the service, mirror the event URL, and
fail exactly when the response carries a non-empty Error (fmt.Errorf of
that Error). -/

def fnInner (svc : MirrorEnv) (event : MEvent) : Except String MResponse :=
  match svc with
  | .error e => .error e
  | .ok mirror =>
    let response := mirror event.url
    if response.Error ≠ "" then .error response.Error
    else .ok response

/-- Fn of fn.go: run fn and, on failure, return the error wrapped as
"failed to mirror url: err"; on success return nil. -/

def Fn (svc : MirrorEnv) (event : MEvent) : Option String :=
  match fnInner svc event with
  | .error e => some ("failed to mirror " ++ event.url ++ ": " ++ e)
  | .ok _ => none

/-- The message of the error fn produced, used to state what Fn wraps. -/

def fnErrMsg (svc : MirrorEnv) (event : MEvent) : String :=
  match fnInner svc event with
  | .error e => e
  | .ok _ => ""

/-- A mirror service that always succeeds. -/

def svcOk : MirrorEnv := .ok fun _ => ⟨"ok", ""⟩

/-- A failing service construction. -/

def svcBad : MirrorEnv := .error "invalid config"

/-! ## Cron service Init scheme dispatch (src/unnamed/part_002 lines 151-171) -/

/-- The characters strictly before the first occurrence of "://", or none
when the separator does not occur. -/

def schemeChars : List Char → Option (List Char)
  | [] => none
  | ':' :: '/' :: '/' :: _ => some []
  | c :: rest =>
    match schemeChars rest with
    | some s => some (c :: s)
    | none => none

/-- Scheme extraction of the afs url.Scheme helper: the text before the
first "://" separator, or the default when there is none. -/

def urlSchemeOf (u dflt : String) : String :=
  match schemeChars u.data with
  | some s => String.mk s
  | none => dflt

/-- Modelled from the spec: the scheme constant of the s3 trigger package
(afsc/s3.Scheme, not under src/); the spec's dispatch table names it "s3". -/

def s3Scheme : String := "s3"

/-- Modelled from the spec: the scheme constant of the in-memory trigger
package (cron/trigger/mem.Scheme, not under src/); the spec names it
"mem". -/

def memScheme : String := "mem"

/-- The trigger implementations the cron Init can select. -/

inductive TriggerImpl where
  | lambda
  | memory
deriving DecidableEq, Repr

/-- The cron service configuration fields Init inspects. -/

structure CronCfg where
  SourceScheme : String
  MetaURL : String
deriving DecidableEq, Repr

/-- The environment of the cron Init: the outcomes of lambda.New (which can
fail), of config.Init and of UpdateSecrets. -/

structure InitEnv where
  lambdaNew : Option String
  configInit : Option String
  updateSecrets : Option String

/-- The outcome of the cron Init: the (possibly rewritten) configuration,
the selected trigger, and the returned error. -/

structure InitOut where
  cfg : CronCfg
  dest : Option TriggerImpl
  err : Option String
deriving DecidableEq, Repr

/-- The tail of Init after the trigger dispatch succeeded: config.Init,
then UpdateSecrets when config.Init returned nil. -/

def initTail (env : InitEnv) (cfg : CronCfg) (dest : Option TriggerImpl) : InitOut :=
  match env.configInit with
  | some e => ⟨cfg, dest, some e⟩
  | none => ⟨cfg, dest, env.updateSecrets⟩

/-- The switch of the cron Init on the (already inferred) source scheme:
s3 selects the lambda trigger, mem the in-memory trigger, and any other
scheme returns the configuration error without running config.Init or
UpdateSecrets. -/

def dispatchScheme (env : InitEnv) (cfg : CronCfg) : InitOut :=
  if cfg.SourceScheme = s3Scheme then
    match env.lambdaNew with
    | some e => ⟨cfg, none, some e⟩
    | none => initTail env cfg (some .lambda)
  else if cfg.SourceScheme = memScheme then
    initTail env cfg (some .memory)
  else ⟨cfg, none, some ("unsupported source scheme: " ++ cfg.SourceScheme)⟩

/-- The cron service Init: infer SourceScheme from the MetaURL scheme when
it is empty, then dispatch on it. -/

def serviceInit (env : InitEnv) (cfg : CronCfg) : InitOut :=
  if cfg.SourceScheme = "" then
    dispatchScheme env { cfg with SourceScheme := urlSchemeOf cfg.MetaURL "" }
  else dispatchScheme env cfg

/-- An Init environment in which every collaborator succeeds. -/

def initEnvOk : InitEnv := ⟨none, none, none⟩

/-! ## Cron coordinator (src/unnamed/part_001, and the part_000/part_002 variant) -/

/-- A storage option as passed to fs.List: a credential option produced by
the secret facade, or the modification-time matcher that
addLastModifiedTimeMatcher appends. -/

inductive StOpt where
  | secretOpt (id : Nat)
  | modifiedAfter (t : Int)
deriving DecidableEq, Repr

/-- A cron rule (cron/config.Rule): its source URL and, for the part_001
variant, the rule source's basic matcher, abstracted as a predicate on the
parent path and the object. -/

structure CronRule where
  sourceURL : String
  filterB : String → StObject → Bool

/-- The environment of the cron coordinator: the storage facade's List, the
secret facade's StorageOpts, the parent-path computation (url.Base composed
with path.Split, both external), the clock and configured window, the
ledger's PendingResources and AddProcessed, the notification trigger, and
the outcomes of ReloadIfNeeded and UpdateSecrets at this tick. -/

structure CronEnv where
  list : String → List StOpt → Except String (List StObject)
  storageOpts : CronRule → Except String (List StOpt)
  parentPath : String → String
  now : Int
  timeWindow : Int
  pendingResources : List StObject → Except String (List StObject)
  notify : CronRule → StObject → Option String
  addProcessed : List StObject → Option String
  reload : Bool × Option String
  updateSecrets : Option String

/-- The worker-pool size of the part_001 cron service (const Limit = 50). -/

def Limit : Nat := 50

/-- The error standing in for fuel exhaustion: the Go recursion of
appendResources has no depth bound, so the embedding charges one fuel unit
per directory level; successful runs are unaffected and concrete runs get
ample fuel. -/

def fuelErr : String := "listing recursion depth exceeded"

/-- The loop body of the part_002/part_000 appendResources, over an
abstract recursive call: the element at index 0 is skipped when it is a
directory, a directory at a later index is recursed into, and every other
element is appended to the accumulated result. -/

def appendLoop2 (recurse : String → List StObject → List StObject × Option String) :
    List StObject → Nat → List StObject → List StObject × Option String
  | [], _, acc => (acc, none)
  | o :: rest, i, acc =>
    if i == 0 && o.isDir then appendLoop2 recurse rest (i + 1) acc
    else if o.isDir then
      match recurse o.url acc with
      | (acc', some e) => (acc', some e)
      | (acc', none) => appendLoop2 recurse rest (i + 1) acc'
    else appendLoop2 recurse rest (i + 1) (acc ++ [o])

/-- The part_002/part_000 appendResources: list the URL with the given
options and walk the listing, recursing into directories with the same
options.  (Defined by explicit Nat recursion on fuel because the recursive
call is passed to the loop as a function.) -/

def appendResources2 (env : CronEnv) (opts : List StOpt) (fuel : Nat) :
    String → List StObject → List StObject × Option String :=
  @Nat.rec (fun _ => String → List StObject → List StObject × Option String)
    (fun _ acc => (acc, some fuelErr))
    (fun _ ih url acc =>
      match env.list url opts with
      | .error e => (acc, some e)
      | .ok objects => appendLoop2 ih objects 0 acc)
    fuel

/-- The loop body of the part_001 appendResources: as appendLoop2, except
that a non-directory is appended only when the rule's basic filter accepts
its parent path and the object. -/

def appendLoop1 (pp : String → String) (f : String → StObject → Bool)
    (recurse : String → List StObject → List StObject × Option String) :
    List StObject → Nat → List StObject → List StObject × Option String
  | [], _, acc => (acc, none)
  | o :: rest, i, acc =>
    if i == 0 && o.isDir then appendLoop1 pp f recurse rest (i + 1) acc
    else if o.isDir then
      match recurse o.url acc with
      | (acc', some e) => (acc', some e)
      | (acc', none) => appendLoop1 pp f recurse rest (i + 1) acc'
    else if f (pp o.url) o then appendLoop1 pp f recurse rest (i + 1) (acc ++ [o])
    else appendLoop1 pp f recurse rest (i + 1) acc

/-- The part_001 appendResources, with the rule's basic filter applied to
every appended non-directory. -/

def appendResources1 (env : CronEnv) (f : String → StObject → Bool) (opts : List StOpt)
    (fuel : Nat) : String → List StObject → List StObject × Option String :=
  @Nat.rec (fun _ => String → List StObject → List StObject × Option String)
    (fun _ acc => (acc, some fuelErr))
    (fun _ ih url acc =>
      match env.list url opts with
      | .error e => (acc, some e)
      | .ok objects => appendLoop1 env.parentPath f ih objects 0 acc)
    fuel

/-- addLastModifiedTimeMatcher: append a modification matcher whose lower
bound is now minus the configured time window. -/

def addLastModifiedTimeMatcher (env : CronEnv) (opts : List StOpt) : List StOpt :=
  opts ++ [StOpt.modifiedAfter (env.now - env.timeWindow)]

/-- The part_001 getResourceCandidates: storage options from the secret
facade, plus the modification-time matcher, then the recursive listing
under the rule's source URL filtered by the rule's basic matcher. -/

def getResourceCandidates1 (env : CronEnv) (fuel : Nat) (rule : CronRule) :
    List StObject × Option String :=
  match env.storageOpts rule with
  | .error e => ([], some e)
  | .ok opts =>
    appendResources1 env rule.filterB (addLastModifiedTimeMatcher env opts) fuel
      rule.sourceURL []

/-- The part_002/part_000 getResourceCandidates: storage options from the
secret facade, then the recursive listing; no modification-time matcher is
added (addLastModifiedTimeMatcher exists in those variants but is never
called). -/

def getResourceCandidates2 (env : CronEnv) (fuel : Nat) (rule : CronRule) :
    List StObject × Option String :=
  match env.storageOpts rule with
  | .error e => ([], some e)
  | .ok opts => appendResources2 env opts fuel rule.sourceURL []

/-- The first error in a list of notification outcomes.  The Go code reads
results from a channel in completion order, which is nondeterministic;
whether an error exists at all is order-independent, and the embedding
fixes list order. -/

def firstErr : List (Option String) → Option String
  | [] => none
  | none :: rest => firstErr rest
  | some e :: _ => some e

/-- The part_001 notifyAll: return nil for an empty list; otherwise the
fixed pool of Limit workers drains the queue, every object is notified
exactly once, and the first error received is returned. -/

def notifyAll1 (notify : StObject → Option String) (objects : List StObject) :
    Option String :=
  if objects.isEmpty then none
  else firstErr (objects.map notify)

/-- The part_002/part_000 notifyAll: one goroutine per object; the returned
value is as for notifyAll1. -/

def notifyAll2 (notify : StObject → Option String) (objects : List StObject) :
    Option String :=
  if objects.isEmpty then none
  else firstErr (objects.map notify)

/-- The number of worker goroutines the part_001 notifyAll starts: zero on
the early return for an empty list, and otherwise exactly Limit, the trip
count of its worker loop, however many objects are pending. -/

def notifyAllWorkers1 (objects : List StObject) : Nat :=
  if objects.isEmpty then 0 else Limit

/-- The number of goroutines the part_002/part_000 notifyAll starts: zero
on the early return, and otherwise one per pending object. -/

def notifyAllWorkers2 (objects : List StObject) : Nat :=
  if objects.isEmpty then 0 else objects.length

/-- The outcome of processResource: the returned object list and error,
plus (as instrumentation of the call structure) the argument AddProcessed
was invoked with, none when it was not invoked. -/

structure ProcOut where
  processed : List StObject
  err : Option String
  addProcessedArg : Option (List StObject)
deriving DecidableEq, Repr

/-- The part_001 processResource: gather candidates, ask the ledger for the
pending ones (returning nil when none are), notify them all, and only then
mark them processed; every error is wrapped and returned. -/

def processResource1 (env : CronEnv) (fuel : Nat) (rule : CronRule) : ProcOut :=
  match getResourceCandidates1 env fuel rule with
  | (_, some e) =>
    ⟨[], some ("failed to get resource candidate " ++ rule.sourceURL ++ ": " ++ e), none⟩
  | (objects, none) =>
    match env.pendingResources objects with
    | .error e =>
      ⟨[], some ("failed to read pending resource " ++ toString objects.length ++ ": " ++ e),
        none⟩
    | .ok pending =>
      if pending.isEmpty then ⟨[], none, none⟩
      else
        match notifyAll1 (env.notify rule) pending with
        | some e => ⟨[], some ("failed to notify all: " ++ e), none⟩
        | none =>
          match env.addProcessed pending with
          | some e => ⟨pending, some ("failed to update processed: " ++ e), some pending⟩
          | none => ⟨pending, none, some pending⟩

/-- The part_002/part_000 processResource: same call structure without the
error wrapping. -/

def processResource2 (env : CronEnv) (fuel : Nat) (rule : CronRule) : ProcOut :=
  match getResourceCandidates2 env fuel rule with
  | (_, some e) => ⟨[], some e, none⟩
  | (objects, none) =>
    match env.pendingResources objects with
    | .error e => ⟨[], some e, none⟩
    | .ok pending =>
      if pending.isEmpty then ⟨[], none, none⟩
      else
        match notifyAll2 (env.notify rule) pending with
        | some e => ⟨[], some e, none⟩
        | none =>
          match env.addProcessed pending with
          | some e => ⟨pending, some e, some pending⟩
          | none => ⟨pending, none, some pending⟩

/-- Modelled from the spec: the cron Response type and the base package's
status constants are not under src/; the spec gives a response with a
status (ok or error), an error message, and the matched rules with their
object URLs. -/

structure TickResponse where
  Status : String
  Error : String
  Matched : List (String × List String)
deriving DecidableEq, Repr

/-- Modelled from the spec: base.StatusOK. -/

def StatusOK : String := "ok"

/-- Modelled from the spec: base.StatusError. -/

def StatusError : String := "error"

/-- A fresh tick response. -/

def newTickResponse : TickResponse := ⟨StatusOK, "", []⟩

/-- The rule loop of the part_001 tick: process every rule in snapshot
order, abort at the first error, and record each non-empty result on the
response's Matched list. -/

def tickLoop1 (env : CronEnv) (fuel : Nat) :
    List CronRule → TickResponse → TickResponse × Option String
  | [], resp => (resp, none)
  | rule :: rest, resp =>
    match processResource1 env fuel rule with
    | ⟨_, some e, _⟩ => (resp, some e)
    | ⟨processed, none, _⟩ =>
      if processed.isEmpty then tickLoop1 env fuel rest resp
      else
        tickLoop1 env fuel rest
          { resp with
              Matched := resp.Matched ++ [(rule.sourceURL, processed.map StObject.url)] }

/-- The part_001 tick: reload the rules if needed, refresh the secrets when
they changed, abort on error, then run the rule loop. -/

def tick1 (env : CronEnv) (fuel : Nat) (rules : List CronRule) (resp : TickResponse) :
    TickResponse × Option String :=
  match env.reload with
  | (true, none) =>
    match env.updateSecrets with
    | some e => (resp, some e)
    | none => tickLoop1 env fuel rules resp
  | (_, some e) => (resp, some e)
  | (false, none) => tickLoop1 env fuel rules resp

/-- The part_001 Tick: run tick on a fresh response and, on error, set the
response status to error and record the error message. -/

def Tick1 (env : CronEnv) (fuel : Nat) (rules : List CronRule) : TickResponse :=
  match tick1 env fuel rules newTickResponse with
  | (resp, some e) => { resp with Status := StatusError, Error := e }
  | (resp, none) => resp

/-- Honoring of the modification matcher by the storage facade: a listing
requested with a modifiedAfter bound returns no non-directory object whose
modification time is below the bound. -/

def HonorsModMatcher (env : CronEnv) : Prop :=
  ∀ url opts objs, env.list url opts = .ok objs →
    ∀ o ∈ objs, o.isDir = false →
      ∀ t, StOpt.modifiedAfter t ∈ opts → t ≤ o.modTime

/-- A store-side filter that honors the modification matchers among the
requested options; used to build concrete honoring stores. -/

def applyModOpts (opts : List StOpt) (objs : List StObject) : List StObject :=
  objs.filter fun o =>
    opts.all fun opt =>
      match opt with
      | StOpt.modifiedAfter t => decide (t ≤ o.modTime)
      | StOpt.secretOpt _ => true

/-- An object last modified well before any window of interest. -/

def staleObj : StObject := ⟨"mem://src/old.txt", false, 0⟩

/-- A cron environment whose collaborators all succeed trivially. -/

def baseCronEnv : CronEnv :=
  { list := fun _ _ => .ok []
    storageOpts := fun _ => .ok []
    parentPath := fun _ => ""
    now := 1000
    timeWindow := 100
    pendingResources := fun objs => .ok objs
    notify := fun _ _ => none
    addProcessed := fun _ => none
    reload := (false, none)
    updateSecrets := none }

/-- A store holding one stale object under every URL, honoring whatever
modification matchers it is asked with. -/

def staleEnv : CronEnv :=
  { baseCronEnv with list := fun _ opts => .ok (applyModOpts opts [staleObj]) }

/-- A rule whose basic filter accepts everything. -/

def cexRule : CronRule := ⟨"mem://src", fun _ _ => true⟩

/-- An object modified inside the window. -/

def freshObj : StObject := ⟨"mem://src/new.txt", false, 950⟩

/-- A store holding one fresh object under every URL, honoring whatever
modification matchers it is asked with. -/

def freshEnv : CronEnv :=
  { baseCronEnv with list := fun _ opts => .ok (applyModOpts opts [freshObj]) }

/-- An object in the window under the first rule's source. -/

def obj1 : StObject := ⟨"mem://src/a.txt", false, 950⟩

/-- An object in the window under the second rule's source, whose
notification will fail. -/

def obj2 : StObject := ⟨"mem://bad/b.txt", false, 960⟩

/-- A rule listing under mem://src, accepting everything. -/

def ruleOk : CronRule := ⟨"mem://src", fun _ _ => true⟩

/-- A rule listing under mem://bad, accepting everything. -/

def ruleBad : CronRule := ⟨"mem://bad", fun _ _ => true⟩

/-- A cron environment with one object per rule source in which notifying
obj2 fails. -/

def tickEnv : CronEnv :=
  { baseCronEnv with
    list := fun url opts =>
      if url = "mem://src" then .ok (applyModOpts opts [obj1])
      else if url = "mem://bad" then .ok (applyModOpts opts [obj2])
      else .ok []
    notify := fun _ o => if o.url = "mem://bad/b.txt" then some "boom" else none }

/-- The listing walk C7 describes, written from the claim's words: recurse
into every directory and keep every non-directory, with directory errors
cutting the walk short as in the source. -/

def claimWalk (recurse : String → List StObject × Option String) :
    List StObject → List StObject × Option String
  | [] => ([], none)
  | o :: rest =>
    if o.isDir then
      match recurse o.url with
      | (got, some e) => (got, some e)
      | (got, none) =>
        match claimWalk recurse rest with
        | (more, err) => (got ++ more, err)
    else
      match claimWalk recurse rest with
      | (more, err) => (o :: more, err)

/-- The traversal C7 describes: list the URL, drop the element at index 0
exactly when it is a directory, then walk the rest with claimWalk; fuel is
charged per level as in the source embedding. -/

def claimCollect (env : CronEnv) (opts : List StOpt) (fuel : Nat) :
    String → List StObject × Option String :=
  @Nat.rec (fun _ => String → List StObject × Option String)
    (fun _ => ([], some fuelErr))
    (fun _ ih url =>
      match env.list url opts with
      | .error e => ([], some e)
      | .ok objects =>
        claimWalk ih
          (match objects with
           | o :: rest => if o.isDir then rest else o :: rest
           | [] => []))
    fuel

/-! ## Theorems -/

theorem loadResources0_eq_fileDecode (fs : RuleStore) (r : Resources) (o : StObject) :
    loadResources0 fs r o =
      match fileDecode fs o with
      | .error e => (r, some e)
      | .ok rs => ({ r with Rules := r.Rules ++ rs }, none) := by
  unfold loadResources0 fileDecode
  cases hd : fs.download o.url with
  | error e => rfl
  | ok content =>
    cases hc : fs.decode content with
    | error e => simp [hc]
    | ok rs => simp [hc]

theorem loadLoop0_ok_front (fs : RuleStore) (tail : List StObject) :
    ∀ pre : List StObject,
      (∀ o ∈ pre, o.isDir = false → ∃ rs, fileDecode fs o = .ok rs) →
      ∀ r : Resources,
        loadLoop0 fs r (pre ++ tail) =
          loadLoop0 fs { r with Rules := r.Rules ++ decodedRules fs pre } tail := by
  intro pre
  induction pre with
  | nil => intro _ r; simp [decodedRules]
  | cons o os ih =>
    intro h r
    by_cases hdir : o.isDir
    · have : loadLoop0 fs r ((o :: os) ++ tail) = loadLoop0 fs r (os ++ tail) := by
        simp [loadLoop0, hdir]
      rw [this, ih (fun o' ho' => h o' (List.mem_cons_of_mem _ ho'))]
      simp [decodedRules, hdir]
    · obtain ⟨rs, hrs⟩ := h o (List.mem_cons_self _ _) (by simpa using hdir)
      have hstep : loadLoop0 fs r ((o :: os) ++ tail) =
          loadLoop0 fs { r with Rules := r.Rules ++ rs } (os ++ tail) := by
        simp [loadLoop0, hdir, loadResources0_eq_fileDecode, hrs]
      rw [hstep, ih (fun o' ho' => h o' (List.mem_cons_of_mem _ ho'))]
      simp [decodedRules, hdir, hrs]

/-- C1 (amended): when some rule file fails to download or decode, the
reload surfaces that file's error and loads no later file, but the rule
snapshot does not revert to its pre-reload value: Rules is left as
initialRules plus the arrays decoded from the files processed before the
failing one. -/
theorem loadAllResources0_decodeError_surfaces
    (fs : RuleStore) (r : Resources) (pre : List StObject) (bad : StObject)
    (rest : List StObject) (e : String)
    (hbase : r.BaseURL ≠ "")
    (hex : fs.exs r.BaseURL = .ok true)
    (hlist : fs.list r.BaseURL = .ok (pre ++ bad :: rest))
    (hpre : ∀ o ∈ pre, o.isDir = false → ∃ rs, fileDecode fs o = .ok rs)
    (hbaddir : bad.isDir = false)
    (hbad : fileDecode fs bad = .error e) :
    loadAllResources0 fs r =
      ({ r with Rules := r.initialRules ++ decodedRules fs pre }, some e) := by
  unfold loadAllResources0 loadReset0
  rw [if_neg hbase]
  simp only [hex, hlist]
  rw [loadLoop0_ok_front fs (bad :: rest) pre hpre]
  simp only [loadLoop0, hbaddir, loadResources0_eq_fileDecode, hbad]
  simp

/-- C1 (counterexample): a failed reload surfaces the decode error, yet the
rule snapshot after the reload differs from the snapshot before it — the
previously active rules are gone. -/
theorem loadAllResources0_decodeError_cex :
    ((loadAllResources0 c1Store c1State).2 =
        some ("failed to decode: mem://rules/r1.json: invalid character")) ∧
      ¬ (loadAllResources0 c1Store c1State).1.Rules = c1State.Rules := by
  constructor
  · rfl
  · decide

/-- C1 (witness): the amended theorem applied to the concrete failing
store. -/
theorem loadAllResources0_decodeError_surfaces_witness :
    loadAllResources0 c1Store c1State =
      ({ c1State with Rules := c1State.initialRules ++ decodedRules c1Store [] },
        some ("failed to decode: mem://rules/r1.json: invalid character")) :=
  loadAllResources0_decodeError_surfaces c1Store c1State [] c1Obj [] _
    (by decide) rfl rfl (by intro o ho; cases ho) rfl rfl

/-- C10: with a non-empty BaseURL that the store reports as non-existent,
loadAllResources resets Rules to the seed initialRules and returns nil, so
rules previously loaded from files are dropped without an error being
surfaced. -/
theorem loadAllResources0_missing_base (fs : RuleStore) (r : Resources)
    (hbase : r.BaseURL ≠ "") (hex : fs.exs r.BaseURL = .ok false) :
    loadAllResources0 fs r = ({ r with Rules := r.initialRules }, none) := by
  unfold loadAllResources0 loadReset0
  rw [if_neg hbase]
  simp [hex]

/-- C10 (witness): the theorem applied to a state whose active snapshot is
non-empty; the snapshot silently becomes the empty seed. -/
theorem loadAllResources0_missing_base_witness :
    loadAllResources0 c10Store c1State = ({ c1State with Rules := c1State.initialRules }, none) :=
  loadAllResources0_missing_base c10Store c1State (by decide) rfl

/-- C6: ReloadIfNeeded reloads exactly when the metadata watcher reports a
change without an error: on a false or erroring HasChanged the state is
returned untouched together with HasChanged's own outputs, and on
(true, nil) the rules are reloaded and re-initialized via loadAndInit. -/
theorem ReloadIfNeeded0_iff_changed (hc : Bool × Option String) (fs : RuleStore)
    (initR : Resource0 → Resource0) (r : Resources) :
    (hc.1 = false ∨ hc.2 ≠ none →
      ReloadIfNeeded0 hc fs initR r = (r, hc.1, hc.2)) ∧
    (hc = (true, none) →
      ReloadIfNeeded0 hc fs initR r =
        ((loadAndInit0 fs initR r).1, true, (loadAndInit0 fs initR r).2)) := by
  obtain ⟨c, e⟩ := hc
  constructor
  · intro h
    cases e with
    | some e => cases c <;> rfl
    | none =>
      cases c with
      | false => rfl
      | true => simp at h
  · intro h
    rw [Prod.mk.injEq] at h
    obtain ⟨rfl, rfl⟩ := h
    show (match loadAndInit0 fs initR r with | (r', e) => (r', true, e)) = _
    obtain ⟨r', e⟩ := loadAndInit0 fs initR r
    rfl

/-- C6 (witness): the theorem applied once on an unchanged watcher and once
on a changed one. -/
theorem ReloadIfNeeded0_iff_changed_witness :
    ReloadIfNeeded0 (false, none) c1Store id c1State = (c1State, false, none) ∧
    ReloadIfNeeded0 (true, none) c1Store id c1State =
      ((loadAndInit0 c1Store id c1State).1, true, (loadAndInit0 c1Store id c1State).2) :=
  ⟨(ReloadIfNeeded0_iff_changed (false, none) c1Store id c1State).1 (Or.inl rfl),
   (ReloadIfNeeded0_iff_changed (true, none) c1Store id c1State).2 rfl⟩

/-- C9: Fn returns nil exactly when the service was constructed and the
mirror response carried an empty Error; every returned error is the wrap
"failed to mirror url: msg" of the event's source URL around fn's error. -/
theorem Fn_error_contract (svc : MirrorEnv) (event : MEvent) :
    (Fn svc event = none ↔ ∃ m, svc = Except.ok m ∧ (m event.url).Error = "") ∧
    (∀ e, Fn svc event = some e →
      e = "failed to mirror " ++ event.url ++ ": " ++ fnErrMsg svc event) := by
  constructor
  · constructor
    · intro h
      cases hs : svc with
      | error e => rw [hs] at h; simp [Fn, fnInner] at h
      | ok m =>
        refine ⟨m, rfl, ?_⟩
        by_contra hne
        rw [hs] at h
        simp [Fn, fnInner, hne] at h
    · rintro ⟨m, rfl, hm⟩
      simp [Fn, fnInner, hm]
  · intro e he
    unfold Fn at he
    cases hf : fnInner svc event with
    | error e' =>
      rw [hf] at he
      unfold fnErrMsg
      rw [hf]
      exact (Option.some.injEq _ _ ▸ he).symm
    | ok resp => rw [hf] at he; cases he

/-- C9 (witness): the contract applied to a succeeding service and to a
failing construction. -/
theorem Fn_error_contract_witness :
    Fn svcOk ⟨"mem://in/a.txt"⟩ = none ∧
    "failed to mirror mem://in/a.txt: invalid config" =
      "failed to mirror " ++ "mem://in/a.txt" ++ ": " ++ fnErrMsg svcBad ⟨"mem://in/a.txt"⟩ :=
  ⟨(Fn_error_contract svcOk ⟨"mem://in/a.txt"⟩).1.mpr ⟨fun _ => ⟨"ok", ""⟩, rfl, rfl⟩,
   (Fn_error_contract svcBad ⟨"mem://in/a.txt"⟩).2
     "failed to mirror mem://in/a.txt: invalid config" (by decide)⟩

/-- C8: Init resolves the source scheme from SourceScheme, falling back to
the MetaURL scheme when it is empty, and dispatches on it: s3 selects the
lambda trigger, mem the in-memory trigger, and for any other scheme Init
returns the configuration error — an output mentioning neither config.Init
nor UpdateSecrets, so no further initialization happens. -/
theorem serviceInit_scheme_dispatch (env : InitEnv) (cfg : CronCfg) (scheme : String)
    (hscheme : scheme =
      if cfg.SourceScheme = "" then urlSchemeOf cfg.MetaURL "" else cfg.SourceScheme) :
    (serviceInit env cfg).cfg.SourceScheme = scheme ∧
    (scheme = s3Scheme → env.lambdaNew = none →
      (serviceInit env cfg).dest = some TriggerImpl.lambda) ∧
    (scheme = memScheme → (serviceInit env cfg).dest = some TriggerImpl.memory) ∧
    (scheme ≠ s3Scheme → scheme ≠ memScheme →
      serviceInit env cfg =
        ⟨{ cfg with SourceScheme := scheme }, none,
          some ("unsupported source scheme: " ++ scheme)⟩) := by
  have hcfg : serviceInit env cfg = dispatchScheme env { cfg with SourceScheme := scheme } := by
    unfold serviceInit
    by_cases h0 : cfg.SourceScheme = ""
    · rw [if_pos h0, hscheme, if_pos h0]
    · rw [if_neg h0, hscheme, if_neg h0]
  rw [hcfg]
  by_cases hs3 : scheme = s3Scheme
  · refine ⟨?_, ?_, ?_, ?_⟩
    · unfold dispatchScheme
      rw [if_pos hs3]
      cases hl : env.lambdaNew with
      | some e => rfl
      | none =>
        unfold initTail
        cases env.configInit <;> rfl
    · intro _ hl
      unfold dispatchScheme
      rw [if_pos hs3, hl]
      unfold initTail
      cases env.configInit <;> rfl
    · intro hm; rw [hs3] at hm; exact absurd hm (by decide)
    · intro h _; exact absurd hs3 h
  · by_cases hmem : scheme = memScheme
    · refine ⟨?_, ?_, ?_, ?_⟩
      · unfold dispatchScheme
        rw [if_neg hs3, if_pos hmem]
        unfold initTail
        cases env.configInit <;> rfl
      · intro h _; exact absurd h hs3
      · intro _
        unfold dispatchScheme
        rw [if_neg hs3, if_pos hmem]
        unfold initTail
        cases env.configInit <;> rfl
      · intro _ h; exact absurd hmem h
    · refine ⟨?_, ?_, ?_, ?_⟩
      · unfold dispatchScheme
        rw [if_neg hs3, if_neg hmem]
      · intro h; exact absurd h hs3
      · intro h; exact absurd h hmem
      · intro _ _
        unfold dispatchScheme
        rw [if_neg hs3, if_neg hmem]

/-- C8 (witness): the dispatch applied to an inferred s3 scheme, an
explicit mem scheme, and an unsupported gs scheme. -/
theorem serviceInit_scheme_dispatch_witness :
    (serviceInit initEnvOk ⟨"", "s3://bucket/meta"⟩).dest = some TriggerImpl.lambda ∧
    (serviceInit initEnvOk ⟨"mem", "mem://meta"⟩).dest = some TriggerImpl.memory ∧
    serviceInit initEnvOk ⟨"gs", "gs://cfg"⟩ =
      ⟨{ (⟨"gs", "gs://cfg"⟩ : CronCfg) with SourceScheme := "gs" }, none,
        some ("unsupported source scheme: " ++ "gs")⟩ :=
  ⟨(serviceInit_scheme_dispatch initEnvOk ⟨"", "s3://bucket/meta"⟩ "s3" (by decide)).2.1
      rfl rfl,
   (serviceInit_scheme_dispatch initEnvOk ⟨"mem", "mem://meta"⟩ "mem" (by decide)).2.2.1 rfl,
   (serviceInit_scheme_dispatch initEnvOk ⟨"gs", "gs://cfg"⟩ "gs" (by decide)).2.2.2
      (by decide) (by decide)⟩

theorem applyModOpts_le (opts : List StOpt) (objs : List StObject) (o : StObject)
    (t : Int) (ho : o ∈ applyModOpts opts objs)
    (ht : StOpt.modifiedAfter t ∈ opts) : t ≤ o.modTime := by
  rw [applyModOpts, List.mem_filter] at ho
  have hall := ho.2
  rw [List.all_eq_true] at hall
  simpa using hall _ ht

theorem staleEnv_honors : HonorsModMatcher staleEnv := by
  intro url opts objs h o ho _ t ht
  have hobjs : objs = applyModOpts opts [staleObj] := by
    have := h
    simp only [staleEnv, baseCronEnv] at this
    exact (Except.ok.injEq _ _ ▸ this).symm
  exact applyModOpts_le opts [staleObj] o t (hobjs ▸ ho) ht

/-- C4 (amended): the part_001 notifyAll starts exactly Limit = 50 workers
for every non-empty pending list, hence never more than 50; the
part_002/part_000 notifyAll starts one goroutine per pending object and so
exceeds 50 whenever more than 50 objects are pending. -/
theorem notifyAll_worker_bounds (objects : List StObject) :
    notifyAllWorkers1 objects ≤ Limit ∧
    (objects ≠ [] → notifyAllWorkers1 objects = Limit) ∧
    (Limit < objects.length → Limit < notifyAllWorkers2 objects) := by
  cases objects with
  | nil =>
    refine ⟨by simp [notifyAllWorkers1], fun h => absurd rfl h, fun h => ?_⟩
    simp only [List.length_nil] at h
    exact absurd h (Nat.not_lt_zero _)
  | cons o os =>
    refine ⟨?_, fun _ => ?_, fun h => ?_⟩
    · simp [notifyAllWorkers1]
    · simp [notifyAllWorkers1]
    · simpa [notifyAllWorkers2] using h

/-- C4 (counterexample): with 51 pending objects the part_002/part_000
notifyAll starts 51 notification goroutines, more than the claimed bound
of 50. -/
theorem notifyAllWorkers2_cex :
    notifyAllWorkers2 (List.replicate 51 staleObj) = 51 ∧ Limit < 51 := by
  constructor
  · rfl
  · decide

/-- C4 (witness): the bounds applied to a one-object list and to a
51-object list. -/
theorem notifyAll_worker_bounds_witness :
    notifyAllWorkers1 [staleObj] = Limit ∧
    Limit < notifyAllWorkers2 (List.replicate 51 staleObj) :=
  ⟨(notifyAll_worker_bounds [staleObj]).2.1 (by decide),
   (notifyAll_worker_bounds (List.replicate 51 staleObj)).2.2 (by decide)⟩

theorem appendResources1_zero (env : CronEnv) (f : String → StObject → Bool)
    (opts : List StOpt) (url : String) (acc : List StObject) :
    appendResources1 env f opts 0 url acc = (acc, some fuelErr) := rfl

theorem appendResources1_succ (env : CronEnv) (f : String → StObject → Bool)
    (opts : List StOpt) (fuel : Nat) (url : String) (acc : List StObject) :
    appendResources1 env f opts (fuel + 1) url acc =
      match env.list url opts with
      | .error e => (acc, some e)
      | .ok objects =>
        appendLoop1 env.parentPath f (appendResources1 env f opts fuel) objects 0 acc := rfl

theorem appendResources2_zero (env : CronEnv) (opts : List StOpt) (url : String)
    (acc : List StObject) :
    appendResources2 env opts 0 url acc = (acc, some fuelErr) := rfl

theorem appendResources2_succ (env : CronEnv) (opts : List StOpt) (fuel : Nat)
    (url : String) (acc : List StObject) :
    appendResources2 env opts (fuel + 1) url acc =
      match env.list url opts with
      | .error e => (acc, some e)
      | .ok objects => appendLoop2 (appendResources2 env opts fuel) objects 0 acc := rfl

theorem appendLoop1_mem (pp : String → String) (f : String → StObject → Bool)
    (recurse : String → List StObject → List StObject × Option String)
    (P : StObject → Prop)
    (hrec : ∀ url acc, ∀ o ∈ (recurse url acc).1,
      o ∈ acc ∨ (o.isDir = false ∧ f (pp o.url) o = true ∧ P o)) :
    ∀ objects, (∀ o ∈ objects, o.isDir = false → P o) →
      ∀ i acc, ∀ o ∈ (appendLoop1 pp f recurse objects i acc).1,
        o ∈ acc ∨ (o.isDir = false ∧ f (pp o.url) o = true ∧ P o) := by
  intro objects
  induction objects with
  | nil =>
    intro _ i acc o ho
    simp only [appendLoop1] at ho
    exact Or.inl ho
  | cons x rest ih =>
    intro hP i acc o ho
    have hPrest : ∀ o' ∈ rest, o'.isDir = false → P o' :=
      fun o' h' => hP o' (List.mem_cons_of_mem _ h')
    simp only [appendLoop1] at ho
    by_cases hA : (i == 0 && x.isDir) = true
    · rw [if_pos hA] at ho
      exact ih hPrest (i + 1) acc o ho
    · rw [if_neg hA] at ho
      by_cases hdir : x.isDir = true
      · rw [if_pos hdir] at ho
        rcases hrx : recurse x.url acc with ⟨acc', rerr⟩
        rw [hrx] at ho
        cases rerr with
        | some e =>
          simp only at ho
          exact hrec x.url acc o (by rw [hrx]; exact ho)
        | none =>
          simp only at ho
          rcases ih hPrest (i + 1) acc' o ho with h | h
          · exact hrec x.url acc o (by rw [hrx]; exact h)
          · exact Or.inr h
      · rw [if_neg hdir] at ho
        have hxdir : x.isDir = false := by simpa using hdir
        by_cases hf : f (pp x.url) x = true
        · rw [if_pos hf] at ho
          rcases ih hPrest (i + 1) (acc ++ [x]) o ho with h | h
          · rcases List.mem_append.mp h with h' | h'
            · exact Or.inl h'
            · have hox : o = x := by simpa using h'
              subst hox
              exact Or.inr ⟨hxdir, hf, hP o (List.mem_cons_self _ _) hxdir⟩
          · exact Or.inr h
        · rw [if_neg hf] at ho
          exact ih hPrest (i + 1) acc o ho

theorem appendResources1_mem (env : CronEnv) (f : String → StObject → Bool)
    (opts : List StOpt) (P : StObject → Prop)
    (hlist : ∀ url objs, env.list url opts = .ok objs →
      ∀ o ∈ objs, o.isDir = false → P o) :
    ∀ fuel url acc, ∀ o ∈ (appendResources1 env f opts fuel url acc).1,
      o ∈ acc ∨ (o.isDir = false ∧ f (env.parentPath o.url) o = true ∧ P o) := by
  intro fuel
  induction fuel with
  | zero =>
    intro url acc o ho
    rw [appendResources1_zero] at ho
    exact Or.inl ho
  | succ fuel ih =>
    intro url acc o ho
    rw [appendResources1_succ] at ho
    cases hl : env.list url opts with
    | error e =>
      rw [hl] at ho
      exact Or.inl ho
    | ok objects =>
      rw [hl] at ho
      exact appendLoop1_mem env.parentPath f (appendResources1 env f opts fuel) P
        (fun url' acc' o' ho' => ih url' acc' o' ho')
        objects (hlist url objects hl) 0 acc o ho

/-- C2 (amended): the part_001 getResourceCandidates appends the
modification-time matcher with lower bound now − timeWindow to the listing
options before listing recursively, so whenever the store honors that
matcher, every gathered candidate is a non-directory whose modification
time lies in the window from now − timeWindow on.  (The part_002/part_000
getResourceCandidates never applies the matcher; see the counterexample.) -/
theorem getResourceCandidates1_timeWindow (env : CronEnv) (fuel : Nat) (rule : CronRule)
    (hhonors : HonorsModMatcher env) :
    ∀ o ∈ (getResourceCandidates1 env fuel rule).1,
      o.isDir = false ∧ env.now - env.timeWindow ≤ o.modTime := by
  intro o ho
  unfold getResourceCandidates1 at ho
  cases hso : env.storageOpts rule with
  | error e =>
    rw [hso] at ho
    simp at ho
  | ok opts =>
    rw [hso] at ho
    have hl : ∀ url objs, env.list url (addLastModifiedTimeMatcher env opts) = .ok objs →
        ∀ o' ∈ objs, o'.isDir = false → env.now - env.timeWindow ≤ o'.modTime := by
      intro url objs hok o' ho' hdir
      exact hhonors url _ objs hok o' ho' hdir _ (by simp [addLastModifiedTimeMatcher])
    rcases appendResources1_mem env rule.filterB (addLastModifiedTimeMatcher env opts)
        (fun ob => env.now - env.timeWindow ≤ ob.modTime) hl fuel rule.sourceURL [] o ho
      with h | h
    · simp at h
    · exact ⟨h.1, h.2.2⟩

/-- C2 (counterexample): the part_002/part_000 getResourceCandidates, run
against a store that honors modification matchers, still returns an object
whose modification time lies before now − timeWindow, because it never asks
for the matcher. -/
theorem getResourceCandidates2_stale_cex :
    HonorsModMatcher staleEnv ∧
    getResourceCandidates2 staleEnv 2 cexRule = ([staleObj], none) ∧
    staleObj.modTime < staleEnv.now - staleEnv.timeWindow := by
  refine ⟨staleEnv_honors, rfl, by decide⟩

theorem freshEnv_honors : HonorsModMatcher freshEnv := by
  intro url opts objs h o ho _ t ht
  have hobjs : objs = applyModOpts opts [freshObj] := by
    have := h
    simp only [freshEnv, baseCronEnv] at this
    exact (Except.ok.injEq _ _ ▸ this).symm
  exact applyModOpts_le opts [freshObj] o t (hobjs ▸ ho) ht

/-- C2 (witness): the window theorem applied to a concrete honoring store
and the candidate it yields. -/
theorem getResourceCandidates1_timeWindow_witness :
    freshObj.isDir = false ∧ freshEnv.now - freshEnv.timeWindow ≤ freshObj.modTime :=
  getResourceCandidates1_timeWindow freshEnv 2 cexRule freshEnv_honors freshObj (by decide)

theorem firstErr_none_iff (l : List (Option String)) :
    firstErr l = none ↔ ∀ x ∈ l, x = none := by
  induction l with
  | nil => simp [firstErr]
  | cons x rest ih =>
    cases x with
    | none => simp [firstErr, ih]
    | some e => simp [firstErr]

theorem notifyAll1_none_iff (n : StObject → Option String) (objects : List StObject) :
    notifyAll1 n objects = none ↔ ∀ o ∈ objects, n o = none := by
  cases objects with
  | nil => simp [notifyAll1]
  | cons o os =>
    simp only [notifyAll1, List.isEmpty_cons, Bool.false_eq_true, if_false]
    rw [firstErr_none_iff]
    constructor
    · intro h o' ho'
      exact h (n o') (List.mem_map_of_mem n ho')
    · intro h x hx
      rcases List.mem_map.mp hx with ⟨o', ho', rfl⟩
      exact h o' ho'

theorem notifyAll2_none_iff (n : StObject → Option String) (objects : List StObject) :
    notifyAll2 n objects = none ↔ ∀ o ∈ objects, n o = none :=
  notifyAll1_none_iff n objects

/-- C3: for both cron variants, AddProcessed is invoked for a rule exactly
when candidate gathering succeeded, the ledger returned a non-empty pending
list, and every notification for the pending objects completed without
error; the argument is then exactly that pending list, so when any
notification fails none of the rule's objects are marked processed. -/
theorem processResource_addProcessed_iff (env : CronEnv) (fuel : Nat) (rule : CronRule)
    (l : List StObject) :
    ((processResource1 env fuel rule).addProcessedArg = some l ↔
      (getResourceCandidates1 env fuel rule).2 = none ∧
        env.pendingResources (getResourceCandidates1 env fuel rule).1 = .ok l ∧
        l ≠ [] ∧ ∀ o ∈ l, env.notify rule o = none) ∧
    ((processResource2 env fuel rule).addProcessedArg = some l ↔
      (getResourceCandidates2 env fuel rule).2 = none ∧
        env.pendingResources (getResourceCandidates2 env fuel rule).1 = .ok l ∧
        l ≠ [] ∧ ∀ o ∈ l, env.notify rule o = none) := by
  constructor
  · unfold processResource1
    generalize getResourceCandidates1 env fuel rule = g
    obtain ⟨objs, gerr⟩ := g
    cases gerr with
    | some e => simp
    | none =>
      dsimp only
      generalize env.pendingResources objs = pres
      cases pres with
      | error e => simp
      | ok pending =>
        dsimp only
        by_cases hemp : pending.isEmpty = true
        · rw [if_pos hemp]
          have hpe : pending = [] := by simpa using hemp
          subst hpe
          constructor
          · intro h
            simp at h
          · rintro ⟨_, hpl, hne, _⟩
            have h0 : [] = l := by simpa using hpl
            exact absurd h0.symm hne
        · rw [if_neg hemp]
          have hne : pending ≠ [] := fun h => hemp (by rw [h]; rfl)
          generalize hn : notifyAll1 (env.notify rule) pending = nres
          cases nres with
          | some e =>
            dsimp only
            constructor
            · intro h
              simp at h
            · rintro ⟨_, hpl, _, hall⟩
              have hpl' : pending = l := by simpa using hpl
              subst hpl'
              rw [(notifyAll1_none_iff (env.notify rule) pending).mpr hall] at hn
              cases hn
          | none =>
            generalize env.addProcessed pending = ares
            cases ares with
            | some e =>
              dsimp only
              constructor
              · intro h
                have hpl : pending = l := by simpa using h
                subst hpl
                exact ⟨rfl, rfl, hne, (notifyAll1_none_iff _ _).mp hn⟩
              · rintro ⟨_, hpl, _, _⟩
                have hpl' : pending = l := by simpa using hpl
                rw [hpl']
            | none =>
              dsimp only
              constructor
              · intro h
                have hpl : pending = l := by simpa using h
                subst hpl
                exact ⟨rfl, rfl, hne, (notifyAll1_none_iff _ _).mp hn⟩
              · rintro ⟨_, hpl, _, _⟩
                have hpl' : pending = l := by simpa using hpl
                rw [hpl']
  · unfold processResource2
    generalize getResourceCandidates2 env fuel rule = g
    obtain ⟨objs, gerr⟩ := g
    cases gerr with
    | some e => simp
    | none =>
      dsimp only
      generalize env.pendingResources objs = pres
      cases pres with
      | error e => simp
      | ok pending =>
        dsimp only
        by_cases hemp : pending.isEmpty = true
        · rw [if_pos hemp]
          have hpe : pending = [] := by simpa using hemp
          subst hpe
          constructor
          · intro h
            simp at h
          · rintro ⟨_, hpl, hne, _⟩
            have h0 : [] = l := by simpa using hpl
            exact absurd h0.symm hne
        · rw [if_neg hemp]
          have hne : pending ≠ [] := fun h => hemp (by rw [h]; rfl)
          generalize hn : notifyAll2 (env.notify rule) pending = nres
          cases nres with
          | some e =>
            dsimp only
            constructor
            · intro h
              simp at h
            · rintro ⟨_, hpl, _, hall⟩
              have hpl' : pending = l := by simpa using hpl
              subst hpl'
              rw [(notifyAll2_none_iff (env.notify rule) pending).mpr hall] at hn
              cases hn
          | none =>
            generalize env.addProcessed pending = ares
            cases ares with
            | some e =>
              dsimp only
              constructor
              · intro h
                have hpl : pending = l := by simpa using h
                subst hpl
                exact ⟨rfl, rfl, hne, (notifyAll2_none_iff _ _).mp hn⟩
              · rintro ⟨_, hpl, _, _⟩
                have hpl' : pending = l := by simpa using hpl
                rw [hpl']
            | none =>
              dsimp only
              constructor
              · intro h
                have hpl : pending = l := by simpa using h
                subst hpl
                exact ⟨rfl, rfl, hne, (notifyAll2_none_iff _ _).mp hn⟩
              · rintro ⟨_, hpl, _, _⟩
                have hpl' : pending = l := by simpa using hpl
                rw [hpl']

theorem tickLoop1_error_truncates (env : CronEnv) (fuel : Nat) (bad : CronRule)
    (hbad : (processResource1 env fuel bad).err.isSome = true) :
    ∀ pre post resp,
      tickLoop1 env fuel (pre ++ bad :: post) resp =
        tickLoop1 env fuel (pre ++ [bad]) resp := by
  intro pre
  induction pre with
  | nil =>
    intro post resp
    simp only [List.nil_append]
    generalize hb : processResource1 env fuel bad = b
    rw [hb] at hbad
    obtain ⟨p, berr, a⟩ := b
    cases berr with
    | some e => simp [tickLoop1, hb]
    | none => simp at hbad
  | cons r rs ih =>
    intro post resp
    simp only [List.cons_append]
    generalize hr : processResource1 env fuel r = pr
    obtain ⟨p, rerr, a⟩ := pr
    cases rerr with
    | some e => simp [tickLoop1, hr]
    | none =>
      simp only [tickLoop1, hr]
      by_cases hemp : p.isEmpty = true
      · simp only [if_pos hemp]
        exact ih post resp
      · simp only [if_neg hemp]
        exact ih post _

/-- C5: the first error of a tick aborts it — the tick's outcome does not
depend on any rule after the failing one — and Tick surfaces it as a
response whose Status is the error status and whose Error is the error's
message. -/
theorem tick1_first_error_aborts (env : CronEnv) (fuel : Nat) :
    (∀ rules resp e, tick1 env fuel rules newTickResponse = (resp, some e) →
      Tick1 env fuel rules = { resp with Status := StatusError, Error := e }) ∧
    (∀ pre bad post resp, (processResource1 env fuel bad).err.isSome = true →
      tick1 env fuel (pre ++ bad :: post) resp = tick1 env fuel (pre ++ [bad]) resp) := by
  constructor
  · intro rules resp e h
    unfold Tick1
    rw [h]
  · intro pre bad post resp hbad
    unfold tick1
    generalize env.reload = re
    obtain ⟨changed, rerr⟩ := re
    cases rerr with
    | some e => cases changed <;> rfl
    | none =>
      cases changed with
      | false => exact tickLoop1_error_truncates env fuel bad hbad pre post resp
      | true =>
        cases env.updateSecrets with
        | some e => rfl
        | none => exact tickLoop1_error_truncates env fuel bad hbad pre post resp

/-- C3 (witness): over the concrete environment the ledger is asked to mark
exactly the pending object of the successful rule. -/
theorem processResource_addProcessed_iff_witness :
    (processResource1 tickEnv 2 ruleOk).addProcessedArg = some [obj1] :=
  (processResource_addProcessed_iff tickEnv 2 ruleOk [obj1]).1.mpr
    ⟨by decide, rfl, by decide, by decide⟩

/-- C5 (witness): over the concrete environment the failing notification of
the second rule aborts the tick, the third rule no longer matters, and Tick
reports the error. -/
theorem tick1_first_error_aborts_witness :
    Tick1 tickEnv 2 [ruleOk, ruleBad] =
      { (⟨StatusOK, "", [("mem://src", ["mem://src/a.txt"])]⟩ : TickResponse) with
          Status := StatusError, Error := "failed to notify all: boom" } ∧
    tick1 tickEnv 2 ([ruleOk] ++ ruleBad :: [ruleOk]) newTickResponse =
      tick1 tickEnv 2 ([ruleOk] ++ [ruleBad]) newTickResponse :=
  ⟨(tick1_first_error_aborts tickEnv 2).1 [ruleOk, ruleBad]
      ⟨StatusOK, "", [("mem://src", ["mem://src/a.txt"])]⟩ "failed to notify all: boom"
      (by decide),
   (tick1_first_error_aborts tickEnv 2).2 [ruleOk] ruleBad [ruleOk] newTickResponse
      (by decide)⟩

theorem claimCollect_zero (env : CronEnv) (opts : List StOpt) (url : String) :
    claimCollect env opts 0 url = ([], some fuelErr) := rfl

theorem claimCollect_succ (env : CronEnv) (opts : List StOpt) (fuel : Nat) (url : String) :
    claimCollect env opts (fuel + 1) url =
      match env.list url opts with
      | .error e => ([], some e)
      | .ok objects =>
        claimWalk (claimCollect env opts fuel)
          (match objects with
           | o :: rest => if o.isDir then rest else o :: rest
           | [] => []) := rfl

theorem appendLoop2_eq_claimWalk
    (recurse : String → List StObject → List StObject × Option String)
    (claimRec : String → List StObject × Option String)
    (hrec : ∀ url acc, recurse url acc = (acc ++ (claimRec url).1, (claimRec url).2)) :
    ∀ objects i acc, i ≠ 0 →
      appendLoop2 recurse objects i acc =
        (acc ++ (claimWalk claimRec objects).1, (claimWalk claimRec objects).2) := by
  intro objects
  induction objects with
  | nil =>
    intro i acc _
    simp [appendLoop2, claimWalk]
  | cons x rest ih =>
    intro i acc hi
    have hi0 : (i == 0) = false := by simpa using hi
    simp only [appendLoop2, hi0, Bool.false_and, Bool.false_eq_true, if_false]
    by_cases hdir : x.isDir = true
    · rw [if_pos hdir]
      rw [hrec x.url acc]
      simp only [claimWalk, if_pos hdir]
      generalize claimRec x.url = cg
      obtain ⟨got, gerr⟩ := cg
      cases gerr with
      | some e => dsimp only
      | none =>
        dsimp only
        rw [ih (i + 1) (acc ++ got) (Nat.succ_ne_zero i)]
        generalize claimWalk claimRec rest = cw
        obtain ⟨more, merr⟩ := cw
        dsimp only
        rw [List.append_assoc]
    · rw [if_neg hdir]
      rw [ih (i + 1) (acc ++ [x]) (Nat.succ_ne_zero i)]
      simp only [claimWalk, if_neg hdir]
      generalize claimWalk claimRec rest = cw
      obtain ⟨more, merr⟩ := cw
      dsimp only
      rw [List.append_assoc]
      rfl

theorem appendResources2_eq_claim (env : CronEnv) (opts : List StOpt) :
    ∀ fuel url acc,
      appendResources2 env opts fuel url acc =
        (acc ++ (claimCollect env opts fuel url).1, (claimCollect env opts fuel url).2) := by
  intro fuel
  induction fuel with
  | zero =>
    intro url acc
    rw [appendResources2_zero, claimCollect_zero]
    simp
  | succ fuel ih =>
    intro url acc
    rw [appendResources2_succ, claimCollect_succ]
    generalize env.list url opts = lres
    cases lres with
    | error e => simp
    | ok objects =>
      dsimp only
      cases objects with
      | nil => simp [appendLoop2, claimWalk]
      | cons x rest =>
        by_cases hdir : x.isDir = true
        · simp only [appendLoop2, beq_self_eq_true, Bool.true_and, hdir, if_true, if_pos hdir]
          exact appendLoop2_eq_claimWalk (appendResources2 env opts fuel)
            (claimCollect env opts fuel) ih rest 1 acc (by decide)
        · simp only [appendLoop2, beq_self_eq_true, Bool.true_and, hdir, Bool.false_eq_true,
            if_false, if_neg hdir]
          rw [appendLoop2_eq_claimWalk (appendResources2 env opts fuel)
            (claimCollect env opts fuel) ih rest 1 (acc ++ [x]) (by decide)]
          simp only [claimWalk, if_neg hdir]
          generalize claimWalk (claimCollect env opts fuel) rest = cw
          obtain ⟨more, merr⟩ := cw
          dsimp only
          rw [List.append_assoc]
          rfl

/-- C7 (amended): the part_002/part_000 appendResources realizes exactly
the traversal the claim describes — the element at index 0 is skipped only
when it is a directory, later directories are recursed into, and every
other non-directory is appended — while the part_001 appendResources
additionally drops every non-directory the rule's basic filter rejects:
its results are always filter-accepted non-directories. -/
theorem appendResources_traversal (env : CronEnv) (opts : List StOpt) :
    (∀ fuel url acc,
      appendResources2 env opts fuel url acc =
        (acc ++ (claimCollect env opts fuel url).1, (claimCollect env opts fuel url).2)) ∧
    (∀ f fuel url, ∀ o ∈ (appendResources1 env f opts fuel url []).1,
      o.isDir = false ∧ f (env.parentPath o.url) o = true) := by
  constructor
  · exact appendResources2_eq_claim env opts
  · intro f fuel url o ho
    rcases appendResources1_mem env f opts (fun _ => True)
        (fun _ _ _ _ _ _ => trivial) fuel url [] o ho with h | h
    · simp at h
    · exact ⟨h.1, h.2.1⟩

/-- C7 (counterexample): a listing whose only element is a non-directory at
index 0, processed by the part_001 appendResources under a rule filter that
rejects it: contrary to the claim, the element is not appended. -/
theorem appendResources1_filter_drop_cex :
    staleEnv.list "mem://src" [] = .ok [staleObj] ∧
    staleObj.isDir = false ∧
    appendResources1 staleEnv (fun _ _ => false) [] 2 "mem://src" [] = ([], none) :=
  ⟨rfl, rfl, rfl⟩

/-- C7 (witness): the traversal equation evaluated on a concrete store, and
the filter property applied to a concrete accepted candidate. -/
theorem appendResources_traversal_witness :
    appendResources2 staleEnv [] 2 "mem://src" [] =
      ([] ++ (claimCollect staleEnv [] 2 "mem://src").1,
        (claimCollect staleEnv [] 2 "mem://src").2) ∧
    (freshObj.isDir = false ∧ true = true) :=
  ⟨(appendResources_traversal staleEnv []).1 2 "mem://src" [],
   (appendResources_traversal freshEnv []).2 (fun _ _ => true) 2 "mem://src" freshObj
     (by decide)⟩
